import Mathlib

/-!
Shallow embedding of the battle-simulation core of
`Puppy-HWK-And-His-Four-Dom-Masters` (src/src/main.rs).

Modelling conventions:
* `f32` coordinates, timers and timestamps are modelled as `ℚ`;
  `i32` quantities (health, damage, budgets) as `ℤ`; collection indices as `ℕ`.
* Rust `Instant` timestamps become explicit `ℚ` time values; `x.elapsed()`
  becomes `now - x` with `now` passed in as a parameter.
* `a.distance(&b) < r` (a square root compared with a radius) is modelled as
  the equivalent square-free comparison `distSq a b < r * r`, valid because
  both sides are nonnegative and squaring is monotone.
* The thread-local RNG is replaced by explicit oracle parameters supplying the
  drawn values.
* Display-only data (textures, name/description strings, colors) is omitted;
  it is never read by the game logic.
-/

/-- 2D vector, from `struct Vec2` in main.rs. -/
structure Vec2 where
  x : ℚ
  y : ℚ
deriving DecidableEq

/-- Squared distance between two points.  `Vec2::distance` in the source
returns `sqrt ((x1-x2)^2 + (y1-y2)^2)`; all uses compare it against a
nonnegative radius, so we keep the square. -/
def Vec2.distSq (a b : Vec2) : ℚ :=
  (a.x - b.x) ^ 2 + (a.y - b.y) ^ 2

/-- `a.distance(&b) < r` from the source, square-free form. -/
def inRange (a b : Vec2) (r : ℚ) : Bool :=
  decide (Vec2.distSq a b < r * r)

/-- Rust `as i32` on a nonnegative float truncates toward zero; this is the
`ℚ → ℤ` version (truncation toward zero for either sign). -/
def truncQ (q : ℚ) : ℤ :=
  if 0 ≤ q then ⌊q⌋ else -⌊-q⌋

/-- `enum GameState` (Login included for completeness). -/
inductive GameState where
  | MainMenu
  | WeaponSelect
  | Login
  | Battle
  | RogueSelection
  | GameOver
deriving DecidableEq

/-- `enum WeaponType`. -/
inductive WeaponType where
  | MachineGun
  | Laser
  | Shotgun
deriving DecidableEq

/-- `struct Weapon`. -/
structure Weapon where
  weapon_type : WeaponType
  attack_power : ℤ
  attack_speed : ℚ
  bullet_speed : ℚ
  bullet_count : ℤ
  enhancement_level : ℤ
deriving DecidableEq

/-- `Weapon::new`. -/
def Weapon.mk_new (weapon_type : WeaponType) : Weapon :=
  let stats : ℤ × ℚ × ℚ × ℤ :=
    match weapon_type with
    | WeaponType.MachineGun => (2, 6/5, 2, 2)
    | WeaponType.Laser => (4, 5/4, 0, 1)
    | WeaponType.Shotgun => (4, 1, 3, 3)
  { weapon_type := weapon_type
    attack_power := stats.1
    attack_speed := stats.2.1
    bullet_speed := stats.2.2.1
    bullet_count := stats.2.2.2
    enhancement_level := 0 }

/-- `enum EnemyType`. -/
inductive EnemyType where
  | Scout
  | Heavy
  | Carrier
  | Boss
deriving DecidableEq

/-- `struct Enemy`.  `last_shot_time` / `spawn_time` are absolute `ℚ`
timestamps. -/
structure Enemy where
  enemy_type : EnemyType
  position : Vec2
  velocity : Vec2
  health : ℤ
  max_health : ℤ
  bullet_damage : ℤ
  collision_damage : ℤ
  last_shot_time : ℚ
  spawn_time : ℚ
  special_state : ℤ
  is_invincible : Bool
  shield_health : ℤ
  movement_pattern : ℤ
  movement_timer : ℚ
  target_position : Vec2
  has_reached_zone : Bool
deriving DecidableEq

/-- `Enemy::new`.  The source draws Heavy's `movement_pattern` from
`rng.gen_range(1..=4)`; that draw is passed in as `heavy_pattern`.
`now` stands for the two `Instant::now()` calls. -/
def Enemy.mk_new (etype : EnemyType) (pos : Vec2) (now : ℚ) (heavy_pattern : ℤ) : Enemy :=
  let stats : ℤ × Vec2 × ℤ × ℤ × ℤ × Vec2 :=
    match etype with
    | EnemyType.Scout => (20, ⟨0, 1/2⟩, 0, 5, 0, ⟨0, 0⟩)
    | EnemyType.Heavy => (30, ⟨0, 4/5⟩, 2, 5, heavy_pattern, ⟨pos.x, 120⟩)
    | EnemyType.Carrier => (100, ⟨0, 3/10⟩, 0, 10, 0, ⟨0, 0⟩)
    | EnemyType.Boss => (150, ⟨0, 1/2⟩, 10, 20, 1, ⟨pos.x, 100⟩)
  { enemy_type := etype
    position := pos
    velocity := stats.2.1
    health := stats.1
    max_health := stats.1
    bullet_damage := stats.2.2.1
    collision_damage := stats.2.2.2.1
    last_shot_time := now
    spawn_time := now
    special_state := if etype = EnemyType.Boss then 1 else 0
    is_invincible := false
    shield_health := 0
    movement_pattern := stats.2.2.2.2.1
    movement_timer := 0
    target_position := stats.2.2.2.2.2
    has_reached_zone := false }

/-- `Enemy::take_damage`. -/
def Enemy.take_damage (e : Enemy) (damage : ℤ) : Enemy :=
  if e.is_invincible then e
  else
    let e1 :=
      if e.shield_health > 0 then
        { e with shield_health := max (e.shield_health - damage) 0 }
      else
        { e with health := max (e.health - damage) 0 }
    if e1.enemy_type = EnemyType.Boss ∧ e1.health ≤ 75 ∧ e1.special_state = 1 then
      { e1 with special_state := 2, is_invincible := true }
    else e1

/-- `Enemy::get_drop_gold`. -/
def Enemy.get_drop_gold (e : Enemy) : ℤ :=
  match e.enemy_type with
  | EnemyType.Scout => 10
  | EnemyType.Heavy => 20
  | EnemyType.Carrier => 50
  | EnemyType.Boss => 100

/-- `Enemy::get_drop_exp`. -/
def Enemy.get_drop_exp (e : Enemy) : ℤ :=
  match e.enemy_type with
  | EnemyType.Scout => 20
  | EnemyType.Heavy => 30
  | EnemyType.Carrier => 50
  | EnemyType.Boss => 0

/-- `struct Player` (rogue_upgrades bookkeeping list omitted here; the
upgrade pool itself is modelled with the Game state below). -/
structure Player where
  position : Vec2
  health : ℤ
  max_health : ℤ
  level : ℤ
  experience : ℤ
  experience_needed : ℤ
  weapon : Weapon
  last_shot_time : ℚ
  attack_power_bonus : ℤ
  crit_rate : ℚ
  crit_damage : ℚ
  bullet_count_bonus : ℤ
  piercing : ℤ
  ricochet : ℤ
  burning_damage : ℤ
  explosion_damage : ℚ
  damage_reduction : ℤ
  bullet_speed_bonus : ℚ
  last_damage_time : ℚ
  invincibility_duration : ℚ
deriving DecidableEq

/-- `Player::new`.  `now` stands for the `Instant::now()` initialisers. -/
def Player.mk_new (now : ℚ) : Player :=
  { position := ⟨400, 550⟩
    health := 20
    max_health := 20
    level := 1
    experience := 0
    experience_needed := 100
    weapon := Weapon.mk_new WeaponType.MachineGun
    last_shot_time := now
    attack_power_bonus := 0
    crit_rate := 0
    crit_damage := 3/2
    bullet_count_bonus := 0
    piercing := 0
    ricochet := 0
    burning_damage := 0
    explosion_damage := 0
    damage_reduction := 0
    bullet_speed_bonus := 0
    last_damage_time := now
    invincibility_duration := 0 }

/-- `Player::add_experience`. -/
def Player.add_experience (p : Player) (exp : ℤ) : Player :=
  { p with experience := p.experience + exp }

/-- `Player::level_up`. -/
def Player.level_up (p : Player) : Player :=
  { p with experience := p.experience - p.experience_needed
           level := p.level + 1
           experience_needed := 100 * (p.level + 1) }

/-- `Player::take_damage`.  `now` is the wall-clock instant of the hit;
`now - last_damage_time` models `last_damage_time.elapsed()`. -/
def Player.take_damage (p : Player) (damage : ℤ) (now : ℚ) : Player :=
  if now - p.last_damage_time < p.invincibility_duration then p
  else
    let actual_damage := max (damage - p.damage_reduction) 1
    { p with health := max (p.health - actual_damage) 0
             last_damage_time := now
             invincibility_duration := 1 }

/-- `Enemy::take_damage` leaves an invincible enemy entirely unchanged. -/
theorem Enemy.take_damage_inv_eq (e : Enemy) (d : ℤ) (hi : e.is_invincible = true) :
    e.take_damage d = e := by
  unfold Enemy.take_damage
  simp [hi]

/-- Characterisation of `Enemy::take_damage` on the shield branch. -/
theorem Enemy.take_damage_shield_eq (e : Enemy) (d : ℤ) (hi : e.is_invincible = false)
    (hs : 0 < e.shield_health) :
    e.take_damage d =
      if e.enemy_type = EnemyType.Boss ∧ e.health ≤ 75 ∧ e.special_state = 1 then
        { e with shield_health := max (e.shield_health - d) 0, special_state := 2,
                 is_invincible := true }
      else { e with shield_health := max (e.shield_health - d) 0 } := by
  unfold Enemy.take_damage
  simp only [hi, Bool.false_eq_true, if_false, gt_iff_lt, hs, if_true]

/-- Characterisation of `Enemy::take_damage` on the health branch. -/
theorem Enemy.take_damage_health_eq (e : Enemy) (d : ℤ) (hi : e.is_invincible = false)
    (hs : e.shield_health ≤ 0) :
    e.take_damage d =
      if e.enemy_type = EnemyType.Boss ∧ max (e.health - d) 0 ≤ 75 ∧ e.special_state = 1 then
        { e with health := max (e.health - d) 0, special_state := 2,
                 is_invincible := true }
      else { e with health := max (e.health - d) 0 } := by
  unfold Enemy.take_damage
  have hs' : ¬ (e.shield_health > 0) := by omega
  simp only [hi, Bool.false_eq_true, if_false, hs', if_true]

/-- C2: the Boss enters phase 2 exactly once, on the first damage application
that brings its health to at most 75 while it is in phase 1; entering phase 2
sets the invincibility flag; damage applied while the flag is set leaves
health and shield (indeed the whole enemy) unchanged.  The four conjuncts:
(1) invincible ⇒ no change at all; (2) a phase-1 boss hit that ends with
health ≤ 75 flips to phase 2 and sets the flag, while one ending above 75
stays in phase 1 with the flag clear; (3) outside phase 1 the phase marker
and flag are untouched by damage, so the transition can fire at most once;
(4) the flag is only ever set by that phase-1-to-2 transition.  (The Boss's
`shield_health` is 0 from spawn and never increased anywhere in the source,
which discharges the `shield_health ≤ 0` hypothesis in conjunct 2.) -/
theorem boss_phase2_entry_exactly_once (e : Enemy) (d : ℤ) :
    (e.is_invincible = true → e.take_damage d = e)
    ∧ (e.is_invincible = false → e.enemy_type = EnemyType.Boss →
        e.special_state = 1 → e.shield_health ≤ 0 →
        (((e.take_damage d).health ≤ 75 →
            (e.take_damage d).special_state = 2 ∧ (e.take_damage d).is_invincible = true)
         ∧ (75 < (e.take_damage d).health →
            (e.take_damage d).special_state = 1 ∧ (e.take_damage d).is_invincible = false)))
    ∧ (e.special_state ≠ 1 →
        (e.take_damage d).special_state = e.special_state
        ∧ (e.take_damage d).is_invincible = e.is_invincible)
    ∧ ((e.take_damage d).is_invincible = true →
        e.is_invincible = true
        ∨ (e.enemy_type = EnemyType.Boss ∧ e.special_state = 1
            ∧ (e.take_damage d).health ≤ 75)) := by
  refine ⟨Enemy.take_damage_inv_eq e d, ?_, ?_, ?_⟩
  · intro hi hb h1 hsh
    rw [Enemy.take_damage_health_eq e d hi hsh]
    by_cases hc : max (e.health - d) 0 ≤ 75
    · have hcond : e.enemy_type = EnemyType.Boss ∧ max (e.health - d) 0 ≤ 75 ∧
          e.special_state = 1 := ⟨hb, hc, h1⟩
      simp only [if_pos hcond]
      constructor
      · intro _
        exact ⟨trivial, trivial⟩
      · intro hgt
        exfalso
        have hgt' : 75 < max (e.health - d) 0 := hgt
        omega
    · have hcond : ¬ (e.enemy_type = EnemyType.Boss ∧ max (e.health - d) 0 ≤ 75 ∧
          e.special_state = 1) := fun h => hc h.2.1
      simp only [if_neg hcond]
      constructor
      · intro hle
        exfalso
        exact hc hle
      · intro _
        exact ⟨h1, hi⟩
  · intro hne
    by_cases hi : e.is_invincible = true
    · rw [Enemy.take_damage_inv_eq e d hi]
      exact ⟨rfl, rfl⟩
    · have hi' : e.is_invincible = false := by
        revert hi; cases e.is_invincible <;> simp
      by_cases hs : 0 < e.shield_health
      · rw [Enemy.take_damage_shield_eq e d hi' hs]
        have hcond : ¬ (e.enemy_type = EnemyType.Boss ∧ e.health ≤ 75 ∧
            e.special_state = 1) := fun h => hne h.2.2
        simp only [if_neg hcond]
        exact ⟨trivial, trivial⟩
      · rw [Enemy.take_damage_health_eq e d hi' (by omega)]
        have hcond : ¬ (e.enemy_type = EnemyType.Boss ∧ max (e.health - d) 0 ≤ 75 ∧
            e.special_state = 1) := fun h => hne h.2.2
        simp only [if_neg hcond]
        exact ⟨trivial, trivial⟩
  · intro hinv
    by_cases hi : e.is_invincible = true
    · exact Or.inl hi
    · have hi' : e.is_invincible = false := by
        revert hi; cases e.is_invincible <;> simp
      right
      by_cases hs : 0 < e.shield_health
      · by_cases hcond : e.enemy_type = EnemyType.Boss ∧ e.health ≤ 75 ∧ e.special_state = 1
        · refine ⟨hcond.1, hcond.2.2, ?_⟩
          rw [Enemy.take_damage_shield_eq e d hi' hs]
          simp only [if_pos hcond]
          exact hcond.2.1
        · exfalso
          rw [Enemy.take_damage_shield_eq e d hi' hs] at hinv
          simp only [if_neg hcond] at hinv
          exact hi hinv
      · by_cases hcond : e.enemy_type = EnemyType.Boss ∧ max (e.health - d) 0 ≤ 75 ∧
            e.special_state = 1
        · refine ⟨hcond.1, hcond.2.2, ?_⟩
          rw [Enemy.take_damage_health_eq e d hi' (by omega)]
          simp only [if_pos hcond]
          exact hcond.2.1
        · exfalso
          rw [Enemy.take_damage_health_eq e d hi' (by omega)] at hinv
          simp only [if_neg hcond] at hinv
          exact hi hinv

/-- Witness for `boss_phase2_entry_exactly_once`: a fresh Boss at health 150
takes 80 damage, ends at health 70 ≤ 75 and flips to invincible phase 2. -/
theorem boss_phase2_entry_exactly_once_witness :
    ((Enemy.mk_new EnemyType.Boss ⟨400, 50⟩ 0 0).take_damage 80).special_state = 2
    ∧ ((Enemy.mk_new EnemyType.Boss ⟨400, 50⟩ 0 0).take_damage 80).is_invincible = true := by
  have h := boss_phase2_entry_exactly_once (Enemy.mk_new EnemyType.Boss ⟨400, 50⟩ 0 0) 80
  exact (h.2.1 (by decide) (by decide) (by decide) (by decide)).1 (by decide)

/-- C10: a hit landing outside the invincibility window always costs the
player at least one health point (health drops to `max (health - 1) 0` or
below), no matter how large `damage_reduction` is compared with the incoming
damage — the applied damage `max (damage - damage_reduction) 1` is never 0. -/
theorem player_hit_costs_at_least_one (p : Player) (damage : ℤ) (now : ℚ)
    (hwin : p.invincibility_duration ≤ now - p.last_damage_time) :
    (p.take_damage damage now).health ≤ max (p.health - 1) 0
    ∧ 1 ≤ max (damage - p.damage_reduction) 1 := by
  unfold Player.take_damage
  have hnot : ¬ (now - p.last_damage_time < p.invincibility_duration) := not_lt.mpr hwin
  simp only [hnot, if_false]
  constructor
  · have h1 : 1 ≤ max (damage - p.damage_reduction) 1 := le_max_right _ _
    omega
  · exact le_max_right _ _

/-- Witness for `player_hit_costs_at_least_one`: a player with damage
reduction 50 hit for 3 (reduction far exceeds the damage) still loses one
health point: 20 → 19. -/
theorem player_hit_costs_at_least_one_witness :
    ((Player.mk_new 0).take_damage 3 5).health ≤ max ((Player.mk_new 0).health - 1) 0 := by
  have h := player_hit_costs_at_least_one (Player.mk_new 0) 3 5 (by norm_num [Player.mk_new])
  exact h.1

/-- `enum BulletType`. -/
inductive BulletType where
  | PlayerMachineGun
  | PlayerLaser
  | PlayerShotgun
  | EnemyHeavy
  | EnemyBoss
  | EnemyGeneric
deriving DecidableEq

/-- `struct Bullet`.  `hit_enemies` is the positional hit-set (indices into
the enemy collection, as in the source). -/
structure Bullet where
  position : Vec2
  velocity : Vec2
  damage : ℤ
  is_player_bullet : Bool
  piercing_count : ℤ
  ricochet_count : ℤ
  burning_damage : ℤ
  explosion_damage : ℚ
  is_crit : Bool
  hit_enemies : List ℕ
  bullet_type : BulletType
deriving DecidableEq

/-- `Bullet::new`. -/
def Bullet.mk_new (position velocity : Vec2) (damage : ℤ) (is_player_bullet : Bool)
    (bullet_type : BulletType) : Bullet :=
  { position := position
    velocity := velocity
    damage := damage
    is_player_bullet := is_player_bullet
    piercing_count := 0
    ricochet_count := 0
    burning_damage := 0
    explosion_damage := 0
    is_crit := false
    hit_enemies := []
    bullet_type := bullet_type }

/-- Result of the bullet→enemy phase of `Game::check_collisions` for one
player bullet: the `enemy_bullet_hits` entries `(enemy index, damage)` it
contributes, the explosion triggers, whether `should_remove_bullet` ends up
set, the deferred `bullet_piercing_updates` values it pushes, and the indices
it appends to `new_hit_enemies`. -/
structure BulletPass where
  hits : List (ℕ × ℤ)
  explosions : List (Vec2 × ℤ)
  should_remove : Bool
  piercing_updates : List ℤ
  new_hits : List ℕ
deriving DecidableEq

/-- The inner enemy loop of `Game::check_collisions` (main.rs lines
1184–1219) for one player bullet, starting at enemy index `i`.  Crucially,
`b` itself is borrowed immutably during the loop in the source: every read of
`bullet.piercing_count` and `bullet.hit_enemies` sees the original values;
piercing and hit-set updates are deferred to after the loop. -/
def bulletEnemyLoop (b : Bullet) : List Enemy → ℕ → BulletPass
  | [], _ => ⟨[], [], false, [], []⟩
  | e :: rest, i =>
    if e.health ≤ 0 ∨ i ∈ b.hit_enemies then bulletEnemyLoop b rest (i + 1)
    else if inRange b.position e.position 30 then
      let damage := b.damage + (if 0 < b.burning_damage then b.burning_damage else 0)
      let expl : List (Vec2 × ℤ) :=
        if 0 < b.explosion_damage then [(e.position, truncQ ((damage : ℚ) * b.explosion_damage))]
        else []
      let pu : List ℤ :=
        if b.piercing_count ≠ 9999 ∧ 0 < b.piercing_count then [b.piercing_count - 1] else []
      let rm : Bool :=
        decide ((b.piercing_count ≠ 9999 ∧ 0 < b.piercing_count ∧ b.piercing_count - 1 ≤ 0)
          ∨ b.piercing_count = 0)
      if b.piercing_count = 0 then ⟨[(i, damage)], expl, rm, pu, [i]⟩
      else
        let r := bulletEnemyLoop b rest (i + 1)
        ⟨(i, damage) :: r.hits, expl ++ r.explosions, rm || r.should_remove,
          pu ++ r.piercing_updates, i :: r.new_hits⟩
    else bulletEnemyLoop b rest (i + 1)

/-- Whether enemy `e` at index `i` is eligible to be hit by bullet `b` this
tick: alive, not in the bullet's hit-set, within the 30-unit radius. -/
def hitEligible (b : Bullet) (e : Enemy) (i : ℕ) : Bool :=
  !(decide (e.health ≤ 0) || decide (i ∈ b.hit_enemies)) && inRange b.position e.position 30

/-- The straight-line list of `(index, damage)` pairs for all eligible
enemies — what the loop produces when it never breaks early. -/
def eligibleHits (b : Bullet) : List Enemy → ℕ → List (ℕ × ℤ)
  | [], _ => []
  | e :: rest, i =>
    if hitEligible b e i then
      (i, b.damage + (if 0 < b.burning_damage then b.burning_damage else 0))
        :: eligibleHits b rest (i + 1)
    else eligibleHits b rest (i + 1)

/-- For a bullet whose piercing budget is nonzero (any `N > 0` or the 9999
sentinel), the loop never breaks early: it damages every eligible enemy. -/
theorem bulletEnemyLoop_hits_eq (b : Bullet) (hp : b.piercing_count ≠ 0) :
    ∀ (es : List Enemy) (i : ℕ), (bulletEnemyLoop b es i).hits = eligibleHits b es i := by
  intro es
  induction es with
  | nil => intro i; rfl
  | cons e rest ih =>
    intro i
    unfold bulletEnemyLoop eligibleHits hitEligible
    by_cases h1 : e.health ≤ 0 ∨ i ∈ b.hit_enemies
    · simp only [h1, if_true]
      have : (!(decide (e.health ≤ 0) || decide (i ∈ b.hit_enemies))
          && inRange b.position e.position 30) = false := by
        rcases h1 with h | h <;> simp [h]
      rw [this]
      simpa using ih (i + 1)
    · simp only [h1, if_false]
      by_cases h2 : inRange b.position e.position 30
      · have : (!(decide (e.health ≤ 0) || decide (i ∈ b.hit_enemies))
            && inRange b.position e.position 30) = true := by
          push_neg at h1
          simp [h1.1, h1.2, h2]
        rw [this]
        simp only [h2, if_true, if_neg hp, ih (i + 1)]
      · have hb2 : (!(decide (e.health ≤ 0) || decide (i ∈ b.hit_enemies))
            && inRange b.position e.position 30) = false := by
          simp [h2]
        rw [hb2]
        simp only [h2]
        simp only [Bool.false_eq_true, if_false]
        exact ih (i + 1)

/-- Every index produced by `eligibleHits` starting at `i` is at least `i`. -/
theorem eligibleHits_le (b : Bullet) :
    ∀ (es : List Enemy) (i : ℕ), ∀ x ∈ eligibleHits b es i, i ≤ x.1 := by
  intro es
  induction es with
  | nil => intro i x hx; simp [eligibleHits] at hx
  | cons e rest ih =>
    intro i x hx
    unfold eligibleHits at hx
    by_cases h : hitEligible b e i
    · rw [if_pos h] at hx
      rcases List.mem_cons.mp hx with h' | h'
      · simp [h']
      · exact le_trans (Nat.le_succ i) (ih (i + 1) x h')
    · rw [if_neg h] at hx
      exact le_trans (Nat.le_succ i) (ih (i + 1) x hx)

/-- Each enemy index is hit at most (and, when eligible, exactly) once per
tick: the multiplicity of index `i + j` among the per-tick hits equals 1 when
the enemy at offset `j` is eligible and 0 otherwise. -/
theorem eligibleHits_count (b : Bullet) :
    ∀ (es : List Enemy) (i j : ℕ) (hj : j < es.length),
      ((eligibleHits b es i).map Prod.fst).count (i + j)
        = if hitEligible b (es.get ⟨j, hj⟩) (i + j) then 1 else 0 := by
  intro es
  induction es with
  | nil => intro i j hj; simp at hj
  | cons e rest ih =>
    intro i j hj
    have tail_count_zero : ((eligibleHits b rest (i + 1)).map Prod.fst).count i = 0 := by
      rw [List.count_eq_zero]
      intro hmem
      rcases List.mem_map.mp hmem with ⟨x, hx, hxi⟩
      have := eligibleHits_le b rest (i + 1) x hx
      omega
    cases j with
    | zero =>
      simp only [Nat.add_zero, List.get_eq_getElem, List.getElem_cons_zero]
      unfold eligibleHits
      by_cases h : hitEligible b e i
      · rw [if_pos h, if_pos h]
        simp [List.count_cons, tail_count_zero]
      · rw [if_neg h, if_neg h]
        exact tail_count_zero
    | succ j' =>
      have hj' : j' < rest.length := by simpa using Nat.lt_of_succ_lt_succ hj
      have hidx : i + (j' + 1) = (i + 1) + j' := by omega
      unfold eligibleHits
      by_cases h : hitEligible b e i
      · rw [if_pos h]
        simp only [List.map_cons, List.count_cons]
        have hne : ¬ (i = i + (j' + 1)) := by omega
        rw [hidx]
        have := ih (i + 1) j' hj'
        simp only [List.get_eq_getElem] at this ⊢
        simp only [List.getElem_cons_succ]
        rw [this]
        have : ¬ (i = (i + 1) + j') := by omega
        simp [this]
      · rw [if_neg h]
        rw [hidx]
        have := ih (i + 1) j' hj'
        simp only [List.get_eq_getElem] at this ⊢
        simp only [List.getElem_cons_succ]
        exact this

/-- C5: a player bullet carrying the unlimited-piercing sentinel (9999, set
for the Laser weapon by `Game::player_shoot`) with a fresh hit-set damages
every living enemy within the 30-unit radius exactly once — never twice — in
a single `check_collisions` tick.  Instantiating `j` at each of 3 in-range
living enemies gives the claim's scenario. -/
theorem laser_bullet_damages_each_once (b : Bullet) (es : List Enemy)
    (hp : b.piercing_count = 9999) (hfresh : b.hit_enemies = [])
    (j : ℕ) (hj : j < es.length)
    (halive : 0 < (es.get ⟨j, hj⟩).health)
    (hrange : inRange b.position (es.get ⟨j, hj⟩).position 30 = true) :
    (((bulletEnemyLoop b es 0).hits).map Prod.fst).count j = 1 := by
  have hp0 : b.piercing_count ≠ 0 := by rw [hp]; decide
  rw [bulletEnemyLoop_hits_eq b hp0 es 0]
  have h := eligibleHits_count b es 0 j hj
  simp only [Nat.zero_add] at h
  rw [h]
  have helig : hitEligible b (es.get ⟨j, hj⟩) j = true := by
    unfold hitEligible
    have h1 : ¬ ((es.get ⟨j, hj⟩).health ≤ 0) := by omega
    have h2 : ¬ (j ∈ b.hit_enemies) := by rw [hfresh]; simp
    simp [h1, h2, hrange]
    exact ⟨halive, hrange⟩
  rw [if_pos helig]

/-- Witness for `laser_bullet_damages_each_once`: a Laser bullet at the
origin among three living enemies all within radius; the middle one is
damaged exactly once. -/
theorem laser_bullet_damages_each_once_witness :
    (((bulletEnemyLoop
        { (Bullet.mk_new ⟨0, 0⟩ ⟨0, -8⟩ 4 true BulletType.PlayerLaser) with piercing_count := 9999 }
        [Enemy.mk_new EnemyType.Scout ⟨5, 5⟩ 0 0,
         Enemy.mk_new EnemyType.Scout ⟨0, 10⟩ 0 0,
         Enemy.mk_new EnemyType.Scout ⟨10, 0⟩ 0 0] 0).hits).map Prod.fst).count 1 = 1 := by
  exact laser_bullet_damages_each_once _ _ rfl rfl 1 (by decide) (by decide)
    (by norm_num [inRange, Vec2.distSq, Bullet.mk_new, Enemy.mk_new])

/-- For a bullet with a finite positive piercing budget, the removal flag is
set in a tick exactly when the budget is 1 and the bullet damaged at least
one enemy that tick: the per-hit test reads the *original* budget, so the
decrement pushed to `bullet_piercing_updates` is only compared against zero
in the form `piercing_count - 1 <= 0`. -/
theorem bulletEnemyLoop_remove_iff (b : Bullet) (hp9 : b.piercing_count ≠ 9999)
    (hp : 0 < b.piercing_count) :
    ∀ (es : List Enemy) (i : ℕ),
      ((bulletEnemyLoop b es i).should_remove = true
        ↔ (b.piercing_count = 1 ∧ (bulletEnemyLoop b es i).hits ≠ [])) := by
  intro es
  induction es with
  | nil =>
    intro i
    simp [bulletEnemyLoop]
  | cons e rest ih =>
    intro i
    unfold bulletEnemyLoop
    have hp0 : ¬ (b.piercing_count = 0) := by omega
    by_cases h1 : e.health ≤ 0 ∨ i ∈ b.hit_enemies
    · simp only [h1, if_true]
      exact ih (i + 1)
    · simp only [h1, if_false]
      by_cases h2 : inRange b.position e.position 30
      · simp only [h2, if_true, if_neg hp0]
        constructor
        · intro h
          rcases Bool.or_eq_true _ _ |>.mp h with h | h
          · have := of_decide_eq_true h
            rcases this with ⟨_, _, h3⟩ | h3
            · exact ⟨by omega, by simp⟩
            · exact absurd h3 hp0
          · exact ⟨((ih (i + 1)).mp h).1, by simp⟩
        · intro ⟨h3, _⟩
          apply Bool.or_eq_true _ _ |>.mpr
          left
          apply decide_eq_true
          left
          exact ⟨hp9, hp, by omega⟩
      · simp only [h2, Bool.false_eq_true, if_false]
        exact ih (i + 1)

/-- All deferred piercing updates pushed by one bullet in one tick carry the
same value `piercing_count - 1`, one per damaged enemy. -/
theorem bulletEnemyLoop_updates_eq (b : Bullet) (hp9 : b.piercing_count ≠ 9999)
    (hp : 0 < b.piercing_count) :
    ∀ (es : List Enemy) (i : ℕ),
      (bulletEnemyLoop b es i).piercing_updates
        = (bulletEnemyLoop b es i).hits.map (fun _ => b.piercing_count - 1) := by
  intro es
  induction es with
  | nil =>
    intro i
    simp [bulletEnemyLoop]
  | cons e rest ih =>
    intro i
    unfold bulletEnemyLoop
    have hp0 : ¬ (b.piercing_count = 0) := by omega
    by_cases h1 : e.health ≤ 0 ∨ i ∈ b.hit_enemies
    · simp only [h1, if_true]
      exact ih (i + 1)
    · simp only [h1, if_false]
      by_cases h2 : inRange b.position e.position 30
      · simp only [h2, if_true, if_neg hp0]
        have hcond : b.piercing_count ≠ 9999 ∧ 0 < b.piercing_count := ⟨hp9, hp⟩
        simp only [if_pos hcond, List.map_cons, List.singleton_append]
        rw [ih (i + 1)]
      · simp only [h2, Bool.false_eq_true, if_false]
        exact ih (i + 1)

/-- The sequential writes `bullet.piercing_count = new_piercing` performed
after the loop (main.rs lines 1237–1241): each update overwrites the field. -/
def applyPiercingUpdates (p : ℤ) (us : List ℤ) : ℤ :=
  us.foldl (fun _ u => u) p

/-- Overwriting with a constant list yields the constant (or the original
value when no update was pushed). -/
theorem applyPiercingUpdates_const (p v : ℤ) :
    ∀ (l : List (ℕ × ℤ)), applyPiercingUpdates p (l.map fun _ => v)
      = if l = [] then p else v := by
  intro l
  induction l generalizing p with
  | nil => rfl
  | cons x xs ih =>
    simp only [List.map_cons, applyPiercingUpdates, List.foldl_cons]
    rw [show (xs.map fun _ => v).foldl (fun _ u => u) v = applyPiercingUpdates v (xs.map fun _ => v) from rfl]
    rw [ih v]
    simp

/-- C1 (amended): a player bullet with finite piercing budget `N > 0` does
*not* stop scanning when its budget is exhausted mid-tick — it damages every
living, not-yet-hit enemy within radius in that tick; the deferred updates
leave its budget at `N - 1` whenever it damaged at least one enemy this tick
(no matter how many), and its removal flag is set exactly in a tick where it
damages at least one enemy while its budget equals 1.  Consequently, meeting
one new enemy per tick, the bullet is removed at the end of the tick of its
`N`-th distinct damaged enemy — not its `(N+1)`-th. -/
theorem pierce_budget_semantics (b : Bullet) (es : List Enemy) (i : ℕ)
    (hp9 : b.piercing_count ≠ 9999) (hp : 0 < b.piercing_count) :
    (bulletEnemyLoop b es i).hits = eligibleHits b es i
    ∧ ((bulletEnemyLoop b es i).should_remove = true
        ↔ (b.piercing_count = 1 ∧ (bulletEnemyLoop b es i).hits ≠ []))
    ∧ applyPiercingUpdates b.piercing_count (bulletEnemyLoop b es i).piercing_updates
        = (if (bulletEnemyLoop b es i).hits = [] then b.piercing_count
           else b.piercing_count - 1) := by
  refine ⟨bulletEnemyLoop_hits_eq b (by omega) es i, bulletEnemyLoop_remove_iff b hp9 hp es i, ?_⟩
  rw [bulletEnemyLoop_updates_eq b hp9 hp es i]
  exact applyPiercingUpdates_const b.piercing_count (b.piercing_count - 1) _

/-- A machine-gun bullet with piercing budget 2, used as concrete input. -/
def pierceWitnessBullet : Bullet :=
  { (Bullet.mk_new ⟨0, 0⟩ ⟨0, -2⟩ 5 true BulletType.PlayerMachineGun) with piercing_count := 2 }

/-- Witness for `pierce_budget_semantics` at a concrete input: budget-2
bullet, one living in-range enemy — it damages the enemy, keeps scanning
rights, is *not* flagged for removal, and its budget becomes 1. -/
theorem pierce_budget_semantics_witness :
    ((bulletEnemyLoop pierceWitnessBullet [Enemy.mk_new EnemyType.Scout ⟨0, 5⟩ 0 0] 0).hits
        = eligibleHits pierceWitnessBullet [Enemy.mk_new EnemyType.Scout ⟨0, 5⟩ 0 0] 0)
    ∧ (((bulletEnemyLoop pierceWitnessBullet [Enemy.mk_new EnemyType.Scout ⟨0, 5⟩ 0 0] 0).should_remove = true)
        ↔ (pierceWitnessBullet.piercing_count = 1
            ∧ (bulletEnemyLoop pierceWitnessBullet [Enemy.mk_new EnemyType.Scout ⟨0, 5⟩ 0 0] 0).hits ≠ []))
    ∧ applyPiercingUpdates pierceWitnessBullet.piercing_count
        (bulletEnemyLoop pierceWitnessBullet [Enemy.mk_new EnemyType.Scout ⟨0, 5⟩ 0 0] 0).piercing_updates
        = (if (bulletEnemyLoop pierceWitnessBullet [Enemy.mk_new EnemyType.Scout ⟨0, 5⟩ 0 0] 0).hits = []
           then pierceWitnessBullet.piercing_count else pierceWitnessBullet.piercing_count - 1) :=
  pierce_budget_semantics pierceWitnessBullet [Enemy.mk_new EnemyType.Scout ⟨0, 5⟩ 0 0] 0
    (by decide) (by decide)

/-- A machine-gun bullet with piercing budget 1 at the origin. -/
def cxBullet : Bullet :=
  { (Bullet.mk_new ⟨0, 0⟩ ⟨0, -2⟩ 5 true BulletType.PlayerMachineGun) with piercing_count := 1 }

/-- Three living Scouts all within the 30-unit radius of the origin. -/
def cxEnemies : List Enemy :=
  [Enemy.mk_new EnemyType.Scout ⟨0, 0⟩ 0 0,
   Enemy.mk_new EnemyType.Scout ⟨3, 0⟩ 0 0,
   Enemy.mk_new EnemyType.Scout ⟨0, 4⟩ 0 0]

/-- C1 counterexample.  The claim says a bullet with piercing budget
`N = 1 > 0` is removed after damaging its `(N+1) = 2`-nd distinct enemy and
stops considering further enemies in the tick once its piercing is
exhausted.  On the code, the budget-1 bullet amid three in-range living
enemies damages all **three** distinct enemies in the tick (the in-loop
break tests the original, un-decremented budget), and with a single enemy in
range it is flagged for removal already after damaging its **first**
distinct enemy (`piercing_count - 1 <= 0` holds at the first hit). -/
theorem pierce_budget_counterexample :
    (bulletEnemyLoop cxBullet cxEnemies 0).hits.length = 3
    ∧ (bulletEnemyLoop cxBullet cxEnemies 0).should_remove = true
    ∧ (bulletEnemyLoop cxBullet [Enemy.mk_new EnemyType.Scout ⟨0, 0⟩ 0 0] 0).hits.length = 1
    ∧ (bulletEnemyLoop cxBullet [Enemy.mk_new EnemyType.Scout ⟨0, 0⟩ 0 0] 0).should_remove = true := by
  norm_num [bulletEnemyLoop, cxBullet, cxEnemies, Enemy.mk_new, Bullet.mk_new, inRange,
    Vec2.distSq, truncQ]

/-- The invincibility-clearing step of `Game::update_boss_and_get_bullets`
(main.rs lines 1081–1084): inside the `special_state == 2` branch,
`if boss.is_invincible && boss.spawn_time.elapsed().as_secs_f32() >= 5.0
{ boss.is_invincible = false; }`.  The elapsed time is measured from
`spawn_time` — which `Enemy::take_damage` never updates at phase entry.
(The radial bullet bursts emitted by the same function involve trigonometric
velocity components and never touch the invincibility flag; they are not
modelled here.) -/
def update_boss_invincibility (boss : Enemy) (now : ℚ) : Enemy :=
  if boss.special_state = 2 ∧ boss.is_invincible = true ∧ 5 ≤ now - boss.spawn_time then
    { boss with is_invincible := false }
  else boss

/-- C3 is a code bug: invincibility is supposed to last 5 seconds from
phase-2 entry, but the code measures from the boss's *spawn*.  Concrete
failing run: a Boss spawned at t = 0 with health worn down to 80 is hit for
10 damage at t = 30; it enters phase 2 invincible (health 70 ≤ 75), yet on
the very next boss update, at t = 30 + 1/100, the flag is already cleared —
0.01 s after phase entry instead of 5 s — because 30.01 - 0 ≥ 5. -/
theorem boss_invincibility_cleared_from_spawn_time :
    (((Enemy.mk_new EnemyType.Boss ⟨400, 50⟩ 0 0).take_damage 70).take_damage 10).special_state = 2
    ∧ (((Enemy.mk_new EnemyType.Boss ⟨400, 50⟩ 0 0).take_damage 70).take_damage 10).is_invincible = true
    ∧ (((Enemy.mk_new EnemyType.Boss ⟨400, 50⟩ 0 0).take_damage 70).take_damage 10).spawn_time = 0
    ∧ (update_boss_invincibility
        (((Enemy.mk_new EnemyType.Boss ⟨400, 50⟩ 0 0).take_damage 70).take_damage 10)
        (30 + 1/100)).is_invincible = false := by
  norm_num [Enemy.mk_new, Enemy.take_damage, update_boss_invincibility]

/-- Rust `f32::clamp(lo, hi)`. -/
def clampQ (v lo hi : ℚ) : ℚ :=
  min (max v lo) hi

theorem clampQ_mem (v lo hi : ℚ) (hlh : lo ≤ hi) :
    lo ≤ clampQ v lo hi ∧ clampQ v lo hi ≤ hi :=
  ⟨le_min (le_max_right _ _) hlh, min_le_right _ _⟩

/-- The per-tick position advance of `Game::update_bullets`. -/
def moveBullet (b : Bullet) (dt : ℚ) : Bullet :=
  { b with position := ⟨b.position.x + b.velocity.x * dt * 100,
                        b.position.y + b.velocity.y * dt * 100⟩ }

/-- The horizontal edge test `position.x <= 0.0 || position.x >= screen_width`. -/
abbrev xOut (w : ℚ) (b : Bullet) : Prop :=
  b.position.x ≤ 0 ∨ w ≤ b.position.x

/-- The vertical edge test `position.y <= 0.0 || position.y >= screen_height`. -/
abbrev yOut (h : ℚ) (b : Bullet) : Prop :=
  b.position.y ≤ 0 ∨ h ≤ b.position.y

/-- One bullet's share of `Game::update_bullets` (main.rs lines 1100–1123):
move, then — only when `ricochet_count > 0` — reflect off any crossed arena
edge, decrementing the ricochet budget once per reflected axis, and if any
bounce happened clamp the position back into the arena and clear the
hit-set. -/
def update_bullet (dt w h : ℚ) (b0 : Bullet) : Bullet :=
  let b := moveBullet b0 dt
  if 0 < b.ricochet_count then
    let b1 :=
      if xOut w b then
        { b with velocity := ⟨-b.velocity.x, b.velocity.y⟩,
                 ricochet_count := b.ricochet_count - 1 }
      else b
    let b2 :=
      if yOut h b1 then
        { b1 with velocity := ⟨b1.velocity.x, -b1.velocity.y⟩,
                  ricochet_count := b1.ricochet_count - 1 }
      else b1
    if xOut w b ∨ yOut h b1 then
      { b2 with position := ⟨clampQ b2.position.x 0 w, clampQ b2.position.y 0 h⟩,
                hit_enemies := [] }
    else b2
  else b

/-- The `bullets.retain(..)` predicate of `Game::update_bullets` (lines
1125–1132), applied to the post-update bullet. -/
def bullet_retained (w h : ℚ) (b : Bullet) : Bool :=
  if 0 < b.ricochet_count then true
  else decide (-50 < b.position.y ∧ b.position.y < h + 50
    ∧ -50 < b.position.x ∧ b.position.x < w + 50)

/-- C6: a bullet whose ricochet budget is positive at the start of
`update_bullets` is never culled by the bounds test that tick; when it
crosses an arena edge, each reflected axis consumes exactly one ricochet
charge and the bullet's hit-set is cleared (so previously hit enemies can be
damaged again); when it stays inside, it is unchanged apart from movement. -/
theorem ricochet_bullet_semantics (b : Bullet) (dt w h : ℚ)
    (hr : 0 < b.ricochet_count) (hw : 0 ≤ w) (hh : 0 ≤ h) :
    bullet_retained w h (update_bullet dt w h b) = true
    ∧ ((xOut w (moveBullet b dt) ∨ yOut h (moveBullet b dt)) →
        (update_bullet dt w h b).hit_enemies = []
        ∧ (update_bullet dt w h b).ricochet_count
            = b.ricochet_count
              - ((if xOut w (moveBullet b dt) then 1 else 0)
                 + (if yOut h (moveBullet b dt) then 1 else 0)))
    ∧ (¬ (xOut w (moveBullet b dt) ∨ yOut h (moveBullet b dt)) →
        update_bullet dt w h b = moveBullet b dt) := by
  have hx0 : (0:ℚ) ≤ clampQ ((moveBullet b dt).position.x) 0 w := (clampQ_mem _ 0 w hw).1
  have hx1 : clampQ ((moveBullet b dt).position.x) 0 w ≤ w := (clampQ_mem _ 0 w hw).2
  have hy0 : (0:ℚ) ≤ clampQ ((moveBullet b dt).position.y) 0 h := (clampQ_mem _ 0 h hh).1
  have hy1 : clampQ ((moveBullet b dt).position.y) 0 h ≤ h := (clampQ_mem _ 0 h hh).2
  have hrm : 0 < (moveBullet b dt).ricochet_count := hr
  unfold update_bullet
  simp only [if_pos hrm]
  by_cases hx : xOut w (moveBullet b dt)
  · by_cases hy : yOut h (moveBullet b dt)
    · simp only [if_pos hx, if_pos hy, if_pos (Or.inl hx)]
      refine ⟨?_, fun _ => ⟨by trivial, ?_⟩, fun hno => absurd (Or.inl hx) hno⟩
      · unfold bullet_retained
        by_cases hrc : 0 < (moveBullet b dt).ricochet_count - 1 - 1
        · rw [if_pos hrc]
        · rw [if_neg hrc]
          apply decide_eq_true
          refine ⟨by linarith, by linarith, by linarith, by linarith⟩
      · have hmr : (moveBullet b dt).ricochet_count = b.ricochet_count := rfl
        omega
    · simp only [if_pos hx, if_neg hy, if_pos (Or.inl hx)]
      refine ⟨?_, fun _ => ⟨by trivial, ?_⟩, fun hno => absurd (Or.inl hx) hno⟩
      · unfold bullet_retained
        by_cases hrc : 0 < (moveBullet b dt).ricochet_count - 1
        · rw [if_pos hrc]
        · rw [if_neg hrc]
          apply decide_eq_true
          refine ⟨by linarith, by linarith, by linarith, by linarith⟩
      · have hmr : (moveBullet b dt).ricochet_count = b.ricochet_count := rfl
        omega
  · by_cases hy : yOut h (moveBullet b dt)
    · simp only [if_neg hx, if_pos hy, if_pos (Or.inr hy)]
      refine ⟨?_, fun _ => ⟨by trivial, ?_⟩, fun hno => absurd (Or.inr hy) hno⟩
      · unfold bullet_retained
        by_cases hrc : 0 < (moveBullet b dt).ricochet_count - 1
        · rw [if_pos hrc]
        · rw [if_neg hrc]
          apply decide_eq_true
          refine ⟨by linarith, by linarith, by linarith, by linarith⟩
      · have hmr : (moveBullet b dt).ricochet_count = b.ricochet_count := rfl
        omega
    · have hno : ¬ (xOut w (moveBullet b dt) ∨ yOut h (moveBullet b dt)) := by
        intro hc
        rcases hc with hc | hc
        · exact hx hc
        · exact hy hc
      simp only [if_neg hx, if_neg hy, if_neg hno]
      refine ⟨?_, fun hyes => absurd hyes hno, fun _ => by trivial⟩
      unfold bullet_retained
      rw [if_pos hrm]

/-- A bullet with one ricochet charge and a nonempty hit-set, about to cross
the left arena edge. -/
def ricoWitnessBullet : Bullet :=
  { (Bullet.mk_new ⟨1, 300⟩ ⟨-2, 0⟩ 5 true BulletType.PlayerMachineGun) with
      ricochet_count := 1, hit_enemies := [0] }

/-- Witness for `ricochet_bullet_semantics`: on an 800×600 arena the bullet
bounces off the left edge, is retained, its hit-set is cleared and its single
ricochet charge is consumed. -/
theorem ricochet_bullet_semantics_witness :
    bullet_retained 800 600 (update_bullet (1/100) 800 600 ricoWitnessBullet) = true
    ∧ (update_bullet (1/100) 800 600 ricoWitnessBullet).hit_enemies = []
    ∧ (update_bullet (1/100) 800 600 ricoWitnessBullet).ricochet_count = 0 := by
  have hx : xOut 800 (moveBullet ricoWitnessBullet (1/100)) := by
    left
    norm_num [moveBullet, ricoWitnessBullet, Bullet.mk_new]
  have hyn : ¬ yOut 600 (moveBullet ricoWitnessBullet (1/100)) := by
    intro hc
    rcases hc with hc | hc <;> norm_num [moveBullet, ricoWitnessBullet, Bullet.mk_new] at hc
  have h := ricochet_bullet_semantics ricoWitnessBullet (1/100) 800 600
    (by norm_num [ricoWitnessBullet, Bullet.mk_new]) (by norm_num) (by norm_num)
  refine ⟨h.1, (h.2.1 (Or.inl hx)).1, ?_⟩
  have h3 := (h.2.1 (Or.inl hx)).2
  rw [if_pos hx, if_neg hyn] at h3
  rw [h3]
  norm_num [ricoWitnessBullet, Bullet.mk_new]

/-- Oracle supplying the random draws `Game::spawn_enemies` makes: spawn
positions for the Carrier / each Scout / each Heavy, plus each new Heavy's
`gen_range(1..=4)` movement pattern (drawn inside `Enemy::new`). -/
structure SpawnOracle where
  carrier_pos : Vec2
  scout_pos : ℕ → Vec2
  heavy_pos : ℕ → Vec2
  heavy_pattern : ℕ → ℤ

/-- `Game::spawn_enemies` (main.rs lines 688–743).  `elapsed` is the battle
time, `t_since` models `last_spawn_time.elapsed()`, `w` the screen width,
`now` the current instant stamped onto new enemies.  Rust `elapsed as i32`
is `truncQ`.  The returned list is the new enemy collection (`push` appends).
The `last_spawn_time = Instant::now()` write at the end is outside the
enemy collection and is not part of this value. -/
def spawn_enemies (elapsed t_since w now : ℚ) (enemies : List Enemy)
    (o : SpawnOracle) : List Enemy :=
  if 180 ≤ elapsed then
    if enemies.any (fun e => e.enemy_type = EnemyType.Boss) then enemies
    else enemies ++ [Enemy.mk_new EnemyType.Boss ⟨w / 2, 50⟩ now 0]
  else if t_since < 1 then enemies
  else
    let es1 :=
      if 40 ≤ elapsed ∧ (truncQ elapsed % 60 = 0
          ∨ (40 ≤ elapsed ∧ elapsed < 45
              ∧ enemies.all (fun e => e.enemy_type ≠ EnemyType.Carrier))) then
        enemies ++ [Enemy.mk_new EnemyType.Carrier o.carrier_pos now 0]
      else enemies
    let scout_count := 3 + truncQ (elapsed / 60)
    let heavy_count : ℤ := if elapsed < 20 then 0 else 1 + truncQ ((elapsed - 20) / 30)
    let es2 :=
      if truncQ elapsed % 5 = 0 then
        es1 ++ (List.range scout_count.toNat).map
          (fun n => Enemy.mk_new EnemyType.Scout (o.scout_pos n) now 0)
      else es1
    let es3 :=
      if truncQ elapsed % 10 = 0 ∧ 20 ≤ elapsed then
        es2 ++ (List.range heavy_count.toNat).map
          (fun n => Enemy.mk_new EnemyType.Heavy (o.heavy_pos n) now (o.heavy_pattern n))
      else es2
    es3

/-- C9: on any tick with elapsed battle time ≥ 180 s the spawner appends
exactly one Boss when none is present and nothing when one is, and in either
case spawns no Scout, Heavy or Carrier that tick. -/
theorem boss_tick_spawns_only_boss (elapsed t_since w now : ℚ) (enemies : List Enemy)
    (o : SpawnOracle) (h180 : 180 ≤ elapsed) :
    (enemies.any (fun e => e.enemy_type = EnemyType.Boss) = false →
      spawn_enemies elapsed t_since w now enemies o
        = enemies ++ [Enemy.mk_new EnemyType.Boss ⟨w / 2, 50⟩ now 0])
    ∧ (enemies.any (fun e => e.enemy_type = EnemyType.Boss) = true →
      spawn_enemies elapsed t_since w now enemies o = enemies)
    ∧ (spawn_enemies elapsed t_since w now enemies o).countP
        (fun e => decide (e.enemy_type = EnemyType.Boss))
        = enemies.countP (fun e => decide (e.enemy_type = EnemyType.Boss))
          + (if enemies.any (fun e => e.enemy_type = EnemyType.Boss) then 0 else 1)
    ∧ (spawn_enemies elapsed t_since w now enemies o).countP
        (fun e => decide (e.enemy_type = EnemyType.Scout))
        = enemies.countP (fun e => decide (e.enemy_type = EnemyType.Scout))
    ∧ (spawn_enemies elapsed t_since w now enemies o).countP
        (fun e => decide (e.enemy_type = EnemyType.Heavy))
        = enemies.countP (fun e => decide (e.enemy_type = EnemyType.Heavy))
    ∧ (spawn_enemies elapsed t_since w now enemies o).countP
        (fun e => decide (e.enemy_type = EnemyType.Carrier))
        = enemies.countP (fun e => decide (e.enemy_type = EnemyType.Carrier)) := by
  unfold spawn_enemies
  rw [if_pos h180]
  by_cases hb : enemies.any (fun e => e.enemy_type = EnemyType.Boss) = true
  · rw [if_pos hb]
    refine ⟨fun hc => ?_, fun _ => rfl, ?_, rfl, rfl, rfl⟩
    · simp [hb] at hc
    · rw [if_pos hb]
      simp
  · rw [if_neg hb]
    refine ⟨fun _ => rfl, fun hc => absurd hc hb, ?_, ?_, ?_, ?_⟩
    · rw [if_neg hb]
      simp [List.countP_append, Enemy.mk_new]
    · simp [List.countP_append, Enemy.mk_new]
    · simp [List.countP_append, Enemy.mk_new]
    · simp [List.countP_append, Enemy.mk_new]

/-- A fixed oracle for spawner witnesses. -/
def trivialOracle : SpawnOracle :=
  ⟨⟨0, 0⟩, fun _ => ⟨0, 0⟩, fun _ => ⟨0, 0⟩, fun _ => 1⟩

/-- Witness for `boss_tick_spawns_only_boss`: at t = 200 s with an empty
enemy collection, exactly the Boss (at top-centre of the 800-wide arena) is
appended. -/
theorem boss_tick_spawns_only_boss_witness :
    spawn_enemies 200 0 800 200 [] trivialOracle
      = [] ++ [Enemy.mk_new EnemyType.Boss ⟨800 / 2, 50⟩ 200 0] := by
  have h := boss_tick_spawns_only_boss 200 0 800 200 [] trivialOracle (by norm_num)
  exact h.1 rfl

/-- `enum UpgradeRarity`. -/
inductive UpgradeRarity where
  | Common
  | Rare
  | Epic
  | Legendary
deriving DecidableEq

/-- `struct RogueUpgrade`.  Display-only string fields (name, descriptions,
icon) are omitted; `id`, the optional stacking cap `max_selections`, the
stack counter `current_selections` and the rarity are kept. -/
structure RogueUpgrade where
  id : ℕ
  max_selections : Option ℕ
  current_selections : ℕ
  rarity : UpgradeRarity
deriving DecidableEq

/-- `RogueUpgrade::new` (strings dropped). -/
def RogueUpgrade.mk_new (id : ℕ) (rarity : UpgradeRarity) (max_selections : Option ℕ) :
    RogueUpgrade :=
  { id := id, max_selections := max_selections, current_selections := 0, rarity := rarity }

/-- `Game::init_rogue_upgrades`: the 11-entry pool; only "Multi-shot"
(id 4) carries a stacking cap, `Some(5)`. -/
def init_rogue_upgrades : List RogueUpgrade :=
  [RogueUpgrade.mk_new 0 UpgradeRarity.Common none,
   RogueUpgrade.mk_new 1 UpgradeRarity.Common none,
   RogueUpgrade.mk_new 2 UpgradeRarity.Rare none,
   RogueUpgrade.mk_new 3 UpgradeRarity.Epic none,
   RogueUpgrade.mk_new 4 UpgradeRarity.Common (some 5),
   RogueUpgrade.mk_new 5 UpgradeRarity.Rare none,
   RogueUpgrade.mk_new 6 UpgradeRarity.Common none,
   RogueUpgrade.mk_new 7 UpgradeRarity.Rare none,
   RogueUpgrade.mk_new 8 UpgradeRarity.Epic none,
   RogueUpgrade.mk_new 9 UpgradeRarity.Rare none,
   RogueUpgrade.mk_new 10 UpgradeRarity.Epic none]

/-- `self.available_upgrades.iter_mut().find(|u| u.id == upgrade.id)`:
first pool element with the given id. -/
def find_by_id : List RogueUpgrade → ℕ → Option RogueUpgrade
  | [], _ => none
  | u :: rest, uid => if u.id = uid then some u else find_by_id rest uid

/-- The in-place `current_selections += 1` on the element `find` returned:
bump the first element with the given id. -/
def bump_first : List RogueUpgrade → ℕ → List RogueUpgrade
  | [], _ => []
  | u :: rest, uid =>
    if u.id = uid then { u with current_selections := u.current_selections + 1 } :: rest
    else u :: bump_first rest uid

/-- The pool effect of `Game::apply_upgrade_and_complete` (main.rs lines
1475–1489): find the upgrade by id, increment its stack counter, and if the
incremented counter has reached its `max_selections` cap remove it from the
pool (`retain(|u| u.id != upgrade.id)`). -/
def apply_upgrade_pool (pool : List RogueUpgrade) (uid : ℕ) : List RogueUpgrade :=
  match find_by_id pool uid with
  | none => pool
  | some u =>
    let pool1 := bump_first pool uid
    match u.max_selections with
    | some m =>
      if m ≤ u.current_selections + 1 then pool1.filter (fun v => decide (v.id ≠ uid))
      else pool1
    | none => pool1

/-- `Game::get_random_rogue_options` (main.rs lines 1431–1446): draw
`min 3 (pool length)` upgrades without replacement from a working copy of
the pool.  The rng values are supplied by `draws`; `gen_range(0..len)`
always yields an index below `len`, modelled as `d % len`.  (The source's
`if available.is_empty() break` can never fire: the loop runs at most the
initial length many times.) -/
def draw_options : List RogueUpgrade → List ℕ → ℕ → List RogueUpgrade
  | _, _, 0 => []
  | [], _, _ + 1 => []
  | _ :: _, [], _ + 1 => []
  | u :: rest, d :: ds, n + 1 =>
    let avail := u :: rest
    let i := d % avail.length
    avail.getD i u :: draw_options (avail.eraseIdx i) ds n

/-- `Game::get_random_rogue_options`, top level. -/
def get_random_rogue_options (avail : List RogueUpgrade) (draws : List ℕ) :
    List RogueUpgrade :=
  draw_options avail draws (min 3 avail.length)

/-- Every offered option is an element of the pool it was drawn from. -/
theorem draw_options_subset :
    ∀ (n : ℕ) (avail : List RogueUpgrade) (draws : List ℕ),
      ∀ u ∈ draw_options avail draws n, u ∈ avail := by
  intro n
  induction n with
  | zero =>
    intro avail draws u hu
    simp [draw_options] at hu
  | succ n ih =>
    intro avail draws u hu
    cases avail with
    | nil => simp [draw_options] at hu
    | cons a as =>
      cases draws with
      | nil => simp [draw_options] at hu
      | cons d ds =>
        unfold draw_options at hu
        rcases List.mem_cons.mp hu with h | h
        · have hlen : d % (a :: as).length < (a :: as).length :=
            Nat.mod_lt _ (by simp)
          rw [h, List.getD_eq_getElem (a :: as) a hlen]
          exact List.getElem_mem hlen
        · exact (List.eraseIdx_sublist (a :: as) (d % (a :: as).length)).subset (ih _ _ u h)

/-- `find_by_id` is the head of the id-filtered pool. -/
theorem find_by_id_eq_head_filter (pool : List RogueUpgrade) (k : ℕ) :
    find_by_id pool k = (pool.filter (fun u => decide (u.id = k))).head? := by
  induction pool with
  | nil => rfl
  | cons u rest ih =>
    unfold find_by_id
    by_cases h : u.id = k
    · simp [h, List.filter_cons]
    · simp only [h, if_false, List.filter_cons, decide_eq_true_eq]
      exact ih

/-- An id occurs in the pool's id list iff the id-filter is nonempty. -/
theorem mem_map_id_iff_filter_ne (pool : List RogueUpgrade) (k : ℕ) :
    k ∈ pool.map RogueUpgrade.id
      ↔ pool.filter (fun u => decide (u.id = k)) ≠ [] := by
  induction pool with
  | nil => simp
  | cons u rest ih =>
    simp only [List.map_cons, List.mem_cons, List.filter_cons]
    by_cases h : u.id = k
    · simp [h]
    · have h' : ¬ (k = u.id) := fun hc => h hc.symm
      simp only [h', false_or, decide_eq_true_eq, h, if_false]
      exact ih

/-- Bumping an id other than `k` does not change the id-`k` filter. -/
theorem bump_first_filter_ne (pool : List RogueUpgrade) (uid k : ℕ) (hne : uid ≠ k) :
    (bump_first pool uid).filter (fun v => decide (v.id = k))
      = pool.filter (fun v => decide (v.id = k)) := by
  induction pool with
  | nil => rfl
  | cons u rest ih =>
    unfold bump_first
    by_cases h : u.id = uid
    · have hk : ¬ (u.id = k) := by rw [h]; exact hne
      simp only [h, if_true, List.filter_cons, decide_eq_true_eq, hk, if_false]
      simp [hne]
    · simp only [h, if_false, List.filter_cons, decide_eq_true_eq]
      by_cases hk : u.id = k
      · rw [if_pos hk, if_pos hk, ih]
      · rw [if_neg hk, if_neg hk]
        exact ih

/-- If the pool holds exactly one element with id `k`, bumping id `k`
increments exactly that element's counter. -/
theorem bump_first_filter_eq (pool : List RogueUpgrade) (k : ℕ) (u : RogueUpgrade)
    (hf : pool.filter (fun v => decide (v.id = k)) = [u]) :
    (bump_first pool k).filter (fun v => decide (v.id = k))
      = [{ u with current_selections := u.current_selections + 1 }] := by
  induction pool with
  | nil => simp at hf
  | cons v rest ih =>
    unfold bump_first
    by_cases h : v.id = k
    · rw [List.filter_cons, if_pos (by simp [h])] at hf
      have hv : v = u := ((List.cons.injEq _ _ _ _).mp hf).1
      have hrest : rest.filter (fun w => decide (w.id = k)) = [] :=
        ((List.cons.injEq _ _ _ _).mp hf).2
      subst hv
      rw [if_pos h, List.filter_cons, if_pos (by simp [h]), hrest]
    · rw [List.filter_cons, if_neg (by simp [h])] at hf
      simp only [h, if_false, List.filter_cons, decide_eq_true_eq, if_neg h]
      exact ih hf

/-- Filtering id `k` out of a list removes everything the id-`k` filter
keeps. -/
theorem filter_erase_self (pool : List RogueUpgrade) (k : ℕ) :
    (pool.filter (fun v => decide (v.id ≠ k))).filter (fun v => decide (v.id = k)) = [] := by
  induction pool with
  | nil => rfl
  | cons u rest ih =>
    rw [List.filter_cons]
    by_cases h : u.id = k
    · rw [if_neg (by simp [h])]
      exact ih
    · rw [if_pos (by simp [h]), List.filter_cons, if_neg (by simp [h])]
      exact ih

/-- Removing id `uid ≠ k` from a list does not change the id-`k` filter. -/
theorem filter_erase_other (pool : List RogueUpgrade) (uid k : ℕ) (hne : uid ≠ k) :
    (pool.filter (fun v => decide (v.id ≠ uid))).filter (fun v => decide (v.id = k))
      = pool.filter (fun v => decide (v.id = k)) := by
  induction pool with
  | nil => rfl
  | cons u rest ih =>
    rw [List.filter_cons]
    by_cases h : u.id = uid
    · rw [if_neg (by simp [h])]
      have hk : ¬ (u.id = k) := by rw [h]; exact hne
      rw [List.filter_cons, if_neg (by simp [hk])]
      exact ih
    · rw [if_pos (by simp [h]), List.filter_cons, List.filter_cons]
      by_cases hk : u.id = k
      · rw [if_pos (by simp [hk]), if_pos (by simp [hk]), ih]
      · rw [if_neg (by simp [hk]), if_neg (by simp [hk])]
        exact ih

/-- Applying an id other than `k` never changes the id-`k` filter of the
pool. -/
theorem apply_upgrade_pool_filter_ne (pool : List RogueUpgrade) (uid k : ℕ) (hne : uid ≠ k) :
    (apply_upgrade_pool pool uid).filter (fun v => decide (v.id = k))
      = pool.filter (fun v => decide (v.id = k)) := by
  unfold apply_upgrade_pool
  cases hfind : find_by_id pool uid with
  | none => rfl
  | some u =>
    dsimp only
    cases hmax : u.max_selections with
    | none =>
      exact bump_first_filter_ne pool uid k hne
    | some m =>
      show List.filter (fun v => decide (v.id = k))
          (if m ≤ u.current_selections + 1 then
            List.filter (fun v => decide (v.id ≠ uid)) (bump_first pool uid)
          else bump_first pool uid)
        = List.filter (fun v => decide (v.id = k)) pool
      by_cases hcap : m ≤ u.current_selections + 1
      · rw [if_pos hcap, filter_erase_other _ uid k hne]
        exact bump_first_filter_ne pool uid k hne
      · rw [if_neg hcap]
        exact bump_first_filter_ne pool uid k hne

/-- The pool bookkeeping invariant for the capped upgrade with id `k` and
cap `K`, when `a` applications of it have happened so far: either it has
left the pool (and never more than `K` applications happened), or it is in
the pool exactly once, with its counter equal to `a < K`. -/
def poolOk (pool : List RogueUpgrade) (k K a : ℕ) : Prop :=
  (pool.filter (fun v => decide (v.id = k)) = [] ∧ a ≤ K)
  ∨ (∃ u : RogueUpgrade, pool.filter (fun v => decide (v.id = k)) = [u]
      ∧ u.max_selections = some K ∧ u.current_selections = a ∧ a < K)

/-- One match's pool history: a sequence of upgrade applications, each of an
id present in the pool at that moment.  (In the source every application
comes from `current_rogue_options`, which `get_random_rogue_options` drew
from `available_upgrades`; the pool is not modified between the offer and
the single application that ends the `RogueSelection` state, so the applied
id is always a member of the current pool — see `draw_options_subset`.) -/
inductive MatchApplies : List RogueUpgrade → List ℕ → List RogueUpgrade → Prop where
  | nil (pool : List RogueUpgrade) : MatchApplies pool [] pool
  | cons (pool : List RogueUpgrade) (uid : ℕ) (seq : List ℕ) (poolF : List RogueUpgrade)
      (hmem : uid ∈ pool.map RogueUpgrade.id)
      (htail : MatchApplies (apply_upgrade_pool pool uid) seq poolF) :
      MatchApplies pool (uid :: seq) poolF

/-- The invariant `poolOk` is preserved along a match, with the running
application count of id `k` added on. -/
theorem applies_poolOk {pool : List RogueUpgrade} {seq : List ℕ} {poolF : List RogueUpgrade}
    (h : MatchApplies pool seq poolF) :
    ∀ (k K a : ℕ), poolOk pool k K a → poolOk poolF k K (a + seq.count k) := by
  induction h with
  | nil pool =>
    intro k K a hp
    simpa using hp
  | cons pool uid seq poolF hmem htail ih =>
    intro k K a hp
    by_cases hk : uid = k
    · subst hk
      have hcount : (uid :: seq).count uid = seq.count uid + 1 := by
        simp [List.count_cons]
      rw [hcount]
      rcases hp with ⟨hnil, _⟩ | ⟨u, hf, hmax, hcur, hlt⟩
      · exact absurd hnil ((mem_map_id_iff_filter_ne pool uid).mp hmem)
      · have hfind : find_by_id pool uid = some u := by
          rw [find_by_id_eq_head_filter, hf]
          rfl
        have happly : poolOk (apply_upgrade_pool pool uid) uid K (a + 1) := by
          unfold apply_upgrade_pool
          rw [hfind]
          simp only [hmax]
          by_cases hcap : K ≤ u.current_selections + 1
          · rw [if_pos hcap]
            left
            exact ⟨filter_erase_self _ _, by omega⟩
          · rw [if_neg hcap]
            right
            refine ⟨{ u with current_selections := u.current_selections + 1 },
              bump_first_filter_eq pool uid u hf, hmax, by simp [hcur], ?_⟩
            omega
        have hfinal := ih uid K (a + 1) happly
        have harith : a + 1 + seq.count uid = a + (seq.count uid + 1) := by omega
        rwa [harith] at hfinal
    · have hcount : (uid :: seq).count k = seq.count k := by
        simp [List.count_cons]
        omega
      rw [hcount]
      apply ih k K a
      rcases hp with ⟨hnil, hle⟩ | ⟨u, hf, hmax, hcur, hlt⟩
      · left
        rw [apply_upgrade_pool_filter_ne pool uid k hk]
        exact ⟨hnil, hle⟩
      · right
        exact ⟨u, by rw [apply_upgrade_pool_filter_ne pool uid k hk]; exact hf,
          hmax, hcur, hlt⟩

/-- C7: an upgrade with stacking cap `K` present once in the starting pool
with a zero counter is applied at most `K` times in a match, and once it has
been applied `K` times it is out of the pool, so no later
`get_random_rogue_options` offer ever contains it. -/
theorem upgrade_cap_limits_applications (pool0 : List RogueUpgrade) (seq : List ℕ)
    (poolF : List RogueUpgrade) (k K : ℕ) (draws : List ℕ)
    (h : MatchApplies pool0 seq poolF)
    (hpool : poolOk pool0 k K 0) :
    seq.count k ≤ K
    ∧ (seq.count k = K →
        (get_random_rogue_options poolF draws).all (fun u => decide (u.id ≠ k)) = true) := by
  have hfinal := applies_poolOk h k K 0 hpool
  simp only [Nat.zero_add] at hfinal
  rcases hfinal with ⟨hnil, hle⟩ | ⟨u, hf, _, _, hlt⟩
  · refine ⟨hle, fun _ => ?_⟩
    apply List.all_eq_true.mpr
    intro x hx
    have hxp : x ∈ poolF :=
      draw_options_subset _ poolF draws x hx
    apply decide_eq_true
    intro hc
    have : x ∈ poolF.filter (fun v => decide (v.id = k)) :=
      List.mem_filter.mpr ⟨hxp, by simp [hc]⟩
    rw [hnil] at this
    simp at this
  · refine ⟨le_of_lt hlt, fun hc => absurd hc (by omega)⟩

/-- The pool after five applications of the capped "Multi-shot" upgrade
(id 4, cap 5). -/
def cappedPoolFinal : List RogueUpgrade :=
  apply_upgrade_pool (apply_upgrade_pool (apply_upgrade_pool (apply_upgrade_pool
    (apply_upgrade_pool init_rogue_upgrades 4) 4) 4) 4) 4

/-- Witness for `upgrade_cap_limits_applications`: five applications of
upgrade 4 stay within its cap 5, and afterwards no offer drawn from the
remaining pool contains id 4. -/
theorem upgrade_cap_limits_applications_witness :
    [4, 4, 4, 4, 4].count 4 ≤ 5
    ∧ (get_random_rogue_options cappedPoolFinal [0, 0, 0]).all
        (fun u => decide (u.id ≠ 4)) = true := by
  have h := upgrade_cap_limits_applications init_rogue_upgrades [4, 4, 4, 4, 4] cappedPoolFinal
    4 5 [0, 0, 0]
    (MatchApplies.cons _ 4 _ _ (by decide)
      (MatchApplies.cons _ 4 _ _ (by decide)
        (MatchApplies.cons _ 4 _ _ (by decide)
          (MatchApplies.cons _ 4 _ _ (by decide)
            (MatchApplies.cons _ 4 _ _ (by decide)
              (MatchApplies.nil _))))))
    (Or.inr ⟨RogueUpgrade.mk_new 4 UpgradeRarity.Common (some 5), by decide, rfl, rfl,
      by decide⟩)
  exact ⟨h.1, h.2 (by decide)⟩

/-- `enum ItemType`. -/
inductive ItemType where
  | HealthPack
deriving DecidableEq

/-- `struct Item`. -/
structure Item where
  item_type : ItemType
  position : Vec2
  velocity : Vec2
  value : ℤ
  spawn_time : ℚ
deriving DecidableEq

/-- `Item::new`. -/
def Item.mk_new (item_type : ItemType) (position : Vec2) (value : ℤ) (now : ℚ) : Item :=
  { item_type := item_type, position := position, velocity := ⟨0, 1⟩, value := value,
    spawn_time := now }

/-- `struct GameResult`. -/
structure GameResult where
  victory : Bool
  final_level : ℤ
  coins_earned : ℤ
  experience_gained : ℤ
  survival_time : ℚ
  enemies_defeated : ℤ
  total_damage_dealt : ℤ
  weapon_used : WeaponType
deriving DecidableEq

/-- `GameResult::new`. -/
def GameResult.mk_new (player : Player) (victory : Bool) (time : ℚ)
    (enemies_defeated : ℤ) (total_damage : ℤ) : GameResult :=
  { victory := victory
    final_level := player.level
    coins_earned := 0
    experience_gained := 0
    survival_time := time
    enemies_defeated := enemies_defeated
    total_damage_dealt := total_damage
    weapon_used := player.weapon.weapon_type }

/-- The simulation-relevant fields of `struct Game`.  Textures, the MySQL
pool, login/input state and the rng handle are omitted: they are display/IO
collaborators (or oracles passed explicitly) and are never read by the
end-of-match logic modelled here. -/
structure GameS where
  state : GameState
  player : Player
  enemies : List Enemy
  bullets : List Bullet
  items : List Item
  coins : ℤ
  wins : ℤ
  available_upgrades : List RogueUpgrade
  current_session_coins : ℤ
  current_session_exp : ℤ
  enemies_defeated_this_session : ℤ
  total_damage_dealt : ℤ
  game_result : Option GameResult
deriving DecidableEq

/-- `Game::reset_game_progress` (main.rs lines 1399–1415): zero the coins,
rebuild the player keeping only the equipped weapon, clear enemies and
bullets (note: **not** items), zero the session counters and refill the
upgrade pool.  `now` models the `Instant::now()` calls inside
`Player::new`. -/
def reset_game_progress (g : GameS) (now : ℚ) : GameS :=
  { g with coins := 0
           player := { Player.mk_new now with weapon := g.player.weapon }
           enemies := []
           bullets := []
           current_session_coins := 0
           current_session_exp := 0
           enemies_defeated_this_session := 0
           total_damage_dealt := 0
           available_upgrades := init_rogue_upgrades }

/-- `Game::end_game` (main.rs lines 1375–1397): build the `GameResult`
snapshot from the pre-reset session data, bump the win counter on victory,
enter `GameOver`, then run `reset_game_progress`. -/
def end_game (g : GameS) (victory : Bool) (survival_time now : ℚ) : GameS :=
  let gr0 := GameResult.mk_new g.player victory survival_time
    g.enemies_defeated_this_session g.total_damage_dealt
  let gr := { gr0 with coins_earned := g.current_session_coins,
                       experience_gained := g.current_session_exp }
  let g1 := { g with game_result := some gr
                     wins := if victory then g.wins + 1 else g.wins
                     state := GameState.GameOver }
  reset_game_progress g1 now

/-- C8 (amended): entering GameOver snapshots the `GameResult` from the
pre-reset session values (and the reset leaves that snapshot untouched),
zeroes the coins and all session counters, clears the enemy and bullet
collections, and keeps the equipped weapon for an immediate restart — but
the **item** collection is *not* cleared at GameOver (items are only cleared
when the next battle starts, in `start_battle`). -/
theorem end_game_snapshot_and_reset (g : GameS) (victory : Bool) (survival_time now : ℚ) :
    (end_game g victory survival_time now).state = GameState.GameOver
    ∧ (end_game g victory survival_time now).game_result = some
        { victory := victory
          final_level := g.player.level
          coins_earned := g.current_session_coins
          experience_gained := g.current_session_exp
          survival_time := survival_time
          enemies_defeated := g.enemies_defeated_this_session
          total_damage_dealt := g.total_damage_dealt
          weapon_used := g.player.weapon.weapon_type }
    ∧ (end_game g victory survival_time now).coins = 0
    ∧ (end_game g victory survival_time now).current_session_coins = 0
    ∧ (end_game g victory survival_time now).current_session_exp = 0
    ∧ (end_game g victory survival_time now).enemies_defeated_this_session = 0
    ∧ (end_game g victory survival_time now).total_damage_dealt = 0
    ∧ (end_game g victory survival_time now).enemies = []
    ∧ (end_game g victory survival_time now).bullets = []
    ∧ (end_game g victory survival_time now).items = g.items
    ∧ (end_game g victory survival_time now).player.weapon = g.player.weapon := by
  unfold end_game reset_game_progress GameResult.mk_new
  refine ⟨rfl, rfl, rfl, rfl, rfl, rfl, rfl, rfl, rfl, rfl, rfl⟩

/-- A mid-battle game state holding one dropped HealthPack. -/
def gameWithItem : GameS :=
  { state := GameState.Battle
    player := Player.mk_new 0
    enemies := []
    bullets := []
    items := [Item.mk_new ItemType.HealthPack ⟨100, 100⟩ 30 5]
    coins := 40
    wins := 0
    available_upgrades := init_rogue_upgrades
    current_session_coins := 40
    current_session_exp := 60
    enemies_defeated_this_session := 3
    total_damage_dealt := 70
    game_result := none }

/-- C8 counterexample: the claim says entering GameOver resets *all* entity
collections including items; on the code, `reset_game_progress` clears only
enemies and bullets, and the dropped HealthPack survives into the GameOver
state. -/
theorem end_game_does_not_clear_items :
    (end_game gameWithItem false 10 10).items
      = [Item.mk_new ItemType.HealthPack ⟨100, 100⟩ 30 5]
    ∧ (end_game gameWithItem false 10 10).items ≠ [] := by
  constructor
  · rfl
  · rw [show (end_game gameWithItem false 10 10).items
      = [Item.mk_new ItemType.HealthPack ⟨100, 100⟩ 30 5] from rfl]
    simp

/-- `Game::apply_rogue_upgrade` (main.rs lines 1491–1512): the per-id stat
effect on the player. -/
def apply_rogue_upgrade (p : Player) (upgrade_id : ℕ) : Player :=
  match upgrade_id with
  | 0 => { p with max_health := p.max_health + 3, health := p.health + 3 }
  | 1 => { p with attack_power_bonus := p.attack_power_bonus + 2 }
  | 2 => { p with crit_rate := p.crit_rate + 1/10 }
  | 3 => { p with crit_damage := p.crit_damage + 1/5 }
  | 4 => { p with bullet_count_bonus := p.bullet_count_bonus + 1 }
  | 5 => { p with explosion_damage := p.explosion_damage + 3/10 }
  | 6 => { p with burning_damage := p.burning_damage + 2 }
  | 7 => { p with bullet_speed_bonus := p.bullet_speed_bonus + 3/10
                  weapon := { p.weapon with attack_speed := p.weapon.attack_speed * (13/10) } }
  | 8 => { p with damage_reduction := p.damage_reduction + 3 }
  | 9 => { p with piercing := p.piercing + 1 }
  | 10 => { p with ricochet := p.ricochet + 1 }
  | _ => p

/-- The health-restore effect of `Game::check_item_collisions` (main.rs
lines 1146–1155): `health = min(health + value, max_health)`. -/
def pickup_health (p : Player) (value : ℤ) : Player :=
  { p with health := min (p.health + value) p.max_health }

/-- Damaging an enemy at one index of the collection (the
`enemies.get_mut(idx)` + `take_damage` step of `check_collisions`). -/
def hit_enemy_at : List Enemy → ℕ → ℤ → List Enemy
  | [], _, _ => []
  | e :: rest, 0, d => e.take_damage d :: rest
  | e :: rest, i + 1, d => e :: hit_enemy_at rest i d

/-- Upgrade application changes player health and max health only for id 0,
and there by +3 each. -/
theorem apply_rogue_upgrade_health (p : Player) (uid : ℕ) :
    ((apply_rogue_upgrade p uid).health = p.health + 3
      ∧ (apply_rogue_upgrade p uid).max_health = p.max_health + 3)
    ∨ ((apply_rogue_upgrade p uid).health = p.health
      ∧ (apply_rogue_upgrade p uid).max_health = p.max_health) := by
  unfold apply_rogue_upgrade
  match uid with
  | 0 => exact Or.inl ⟨rfl, rfl⟩
  | 1 => exact Or.inr ⟨rfl, rfl⟩
  | 2 => exact Or.inr ⟨rfl, rfl⟩
  | 3 => exact Or.inr ⟨rfl, rfl⟩
  | 4 => exact Or.inr ⟨rfl, rfl⟩
  | 5 => exact Or.inr ⟨rfl, rfl⟩
  | 6 => exact Or.inr ⟨rfl, rfl⟩
  | 7 => exact Or.inr ⟨rfl, rfl⟩
  | 8 => exact Or.inr ⟨rfl, rfl⟩
  | 9 => exact Or.inr ⟨rfl, rfl⟩
  | 10 => exact Or.inr ⟨rfl, rfl⟩
  | n + 11 => exact Or.inr ⟨rfl, rfl⟩

/-- Nonnegative damage keeps an enemy's health within `[0, max_health]` and
leaves `max_health` unchanged. -/
theorem Enemy.take_damage_health_bounds (e : Enemy) (d : ℤ) (hd : 0 ≤ d)
    (h0 : 0 ≤ e.health) (h1 : e.health ≤ e.max_health) :
    0 ≤ (e.take_damage d).health ∧ (e.take_damage d).health ≤ (e.take_damage d).max_health := by
  by_cases hi : e.is_invincible = true
  · rw [Enemy.take_damage_inv_eq e d hi]
    exact ⟨h0, h1⟩
  · have hi' : e.is_invincible = false := by
      revert hi; cases e.is_invincible <;> simp
    by_cases hs : 0 < e.shield_health
    · rw [Enemy.take_damage_shield_eq e d hi' hs]
      by_cases hc : e.enemy_type = EnemyType.Boss ∧ e.health ≤ 75 ∧ e.special_state = 1
      · rw [if_pos hc]
        exact ⟨h0, h1⟩
      · rw [if_neg hc]
        exact ⟨h0, h1⟩
    · rw [Enemy.take_damage_health_eq e d hi' (by omega)]
      by_cases hc : e.enemy_type = EnemyType.Boss ∧ max (e.health - d) 0 ≤ 75
          ∧ e.special_state = 1
      · rw [if_pos hc]
        show 0 ≤ max (e.health - d) 0 ∧ max (e.health - d) 0 ≤ e.max_health
        omega
      · rw [if_neg hc]
        show 0 ≤ max (e.health - d) 0 ∧ max (e.health - d) 0 ≤ e.max_health
        omega

/-- Pointwise health-bound preservation through `hit_enemy_at`. -/
theorem hit_enemy_at_bounds (d : ℤ) (hd : 0 ≤ d) :
    ∀ (es : List Enemy) (i : ℕ),
      (∀ e ∈ es, 0 ≤ e.health ∧ e.health ≤ e.max_health) →
      ∀ e ∈ hit_enemy_at es i d, 0 ≤ e.health ∧ e.health ≤ e.max_health := by
  intro es
  induction es with
  | nil => intro i _ e he; simp [hit_enemy_at] at he
  | cons a rest ih =>
    intro i hall e he
    cases i with
    | zero =>
      rcases List.mem_cons.mp he with h | h
      · subst h
        have := hall a (by simp)
        exact Enemy.take_damage_health_bounds a d hd this.1 this.2
      · exact hall e (List.mem_cons_of_mem a h)
    | succ i' =>
      rcases List.mem_cons.mp he with h | h
      · subst h
        exact hall e (by simp)
      · exact ih i' (fun x hx => hall x (List.mem_cons_of_mem a hx)) e h

/-- One battle state: the player plus the enemy collection (the only fields
the health-bound claim is about). -/
structure SimState where
  player : Player
  enemies : List Enemy

/-- Over-approximation of the states one match can reach.  Constructors
cover every site in main.rs that writes `player.health`,
`player.max_health`, `enemy.health` or `enemy.max_health`:
`Player::new` (init/reset, also `start_battle`/`reset_game_progress`),
`Player::take_damage`, the HealthPack pickup in `check_item_collisions`
(`value` is the constant 30 there, any `v ≥ 0` here),
`apply_rogue_upgrade`, `Enemy::new` at every spawn site,
`Enemy::take_damage` in `check_collisions` (direct hits and explosions —
every damage value the source passes is nonnegative: weapon attack power is
≥ 2 plus nonnegative bonuses and crit scaling, burning/explosion add-ons
are nonnegative), `retain`/`remove` on the enemy collection, and `frame`
which admits any other mutation that leaves all health and max-health
fields unchanged (movement, timers, flags, experience, bullets). -/
inductive Reach : SimState → Prop where
  | init (now : ℚ) : Reach ⟨Player.mk_new now, []⟩
  | reset (s : SimState) (w : Weapon) (now : ℚ) :
      Reach s → Reach ⟨{ Player.mk_new now with weapon := w }, []⟩
  | player_hit (s : SimState) (d : ℤ) (now : ℚ) :
      Reach s → Reach ⟨s.player.take_damage d now, s.enemies⟩
  | item_pickup (s : SimState) (v : ℤ) (hv : 0 ≤ v) :
      Reach s → Reach ⟨pickup_health s.player v, s.enemies⟩
  | upgrade (s : SimState) (uid : ℕ) :
      Reach s → Reach ⟨apply_rogue_upgrade s.player uid, s.enemies⟩
  | spawn (s : SimState) (et : EnemyType) (pos : Vec2) (now : ℚ) (pat : ℤ) :
      Reach s → Reach ⟨s.player, s.enemies ++ [Enemy.mk_new et pos now pat]⟩
  | enemy_hit (s : SimState) (i : ℕ) (d : ℤ) (hd : 0 ≤ d) :
      Reach s → Reach ⟨s.player, hit_enemy_at s.enemies i d⟩
  | cull (s : SimState) (q : Enemy → Bool) :
      Reach s → Reach ⟨s.player, s.enemies.filter q⟩
  | remove_at (s : SimState) (i : ℕ) :
      Reach s → Reach ⟨s.player, s.enemies.eraseIdx i⟩
  | frame (s : SimState) (p' : Player) (es' : List Enemy)
      (hp1 : p'.health = s.player.health) (hp2 : p'.max_health = s.player.max_health)
      (he : es'.map (fun e => (e.health, e.max_health))
        = s.enemies.map (fun e => (e.health, e.max_health))) :
      Reach s → Reach ⟨p', es'⟩

/-- C4: in every reachable battle state the player's health lies in
`[0, max_health]` and every enemy's health lies in `[0, its max_health]`. -/
theorem health_within_bounds_invariant (s : SimState) (h : Reach s) :
    0 ≤ s.player.health ∧ s.player.health ≤ s.player.max_health
    ∧ ∀ e ∈ s.enemies, 0 ≤ e.health ∧ e.health ≤ e.max_health := by
  induction h with
  | init now =>
    refine ⟨by norm_num [Player.mk_new], by norm_num [Player.mk_new], by simp⟩
  | reset s w now _ _ =>
    refine ⟨by norm_num [Player.mk_new], by norm_num [Player.mk_new], by simp⟩
  | player_hit s d now _ ih =>
    dsimp only
    obtain ⟨h0, h1, he⟩ := ih
    refine ⟨?_, ?_, he⟩ <;>
    · unfold Player.take_damage
      by_cases hw : now - s.player.last_damage_time < s.player.invincibility_duration
      · rw [if_pos hw]
        omega
      · rw [if_neg hw]
        show _
        have hact : 1 ≤ max (d - s.player.damage_reduction) 1 := le_max_right _ _
        simp only
        omega
  | item_pickup s v hv _ ih =>
    dsimp only
    obtain ⟨h0, h1, he⟩ := ih
    unfold pickup_health
    refine ⟨?_, ?_, he⟩ <;> (show _; simp only; omega)
  | upgrade s uid _ ih =>
    dsimp only
    obtain ⟨h0, h1, he⟩ := ih
    rcases apply_rogue_upgrade_health s.player uid with ⟨ha, hb⟩ | ⟨ha, hb⟩ <;>
      exact ⟨by omega, by omega, he⟩
  | spawn s et pos now pat _ ih =>
    dsimp only
    obtain ⟨h0, h1, he⟩ := ih
    refine ⟨h0, h1, ?_⟩
    intro e hmem
    rcases List.mem_append.mp hmem with h | h
    · exact he e h
    · have : e = Enemy.mk_new et pos now pat := by simpa using h
      subst this
      cases et <;> norm_num [Enemy.mk_new]
  | enemy_hit s i d hd _ ih =>
    dsimp only
    obtain ⟨h0, h1, he⟩ := ih
    exact ⟨h0, h1, hit_enemy_at_bounds d hd s.enemies i he⟩
  | cull s q _ ih =>
    dsimp only
    obtain ⟨h0, h1, he⟩ := ih
    exact ⟨h0, h1, fun e hmem => he e (List.mem_of_mem_filter hmem)⟩
  | remove_at s i _ ih =>
    dsimp only
    obtain ⟨h0, h1, he⟩ := ih
    exact ⟨h0, h1, fun e hmem => he e ((List.eraseIdx_sublist s.enemies i).subset hmem)⟩
  | frame s p' es' hp1 hp2 hel _ ih =>
    dsimp only
    obtain ⟨h0, h1, he⟩ := ih
    refine ⟨by omega, by omega, ?_⟩
    intro e hmem
    have : (e.health, e.max_health) ∈ es'.map (fun e => (e.health, e.max_health)) :=
      List.mem_map_of_mem _ hmem
    rw [hel] at this
    rcases List.mem_map.mp this with ⟨e0, he0, hpair⟩
    have h0' := he e0 he0
    have hh : e0.health = e.health ∧ e0.max_health = e.max_health := by
      have := Prod.mk.injEq _ _ _ _ ▸ hpair
      exact ⟨congrArg Prod.fst hpair, congrArg Prod.snd hpair⟩
    omega

/-- Witness for `health_within_bounds_invariant`: the state after a fresh
player takes a 5-damage hit at t = 2. -/
theorem health_within_bounds_invariant_witness :
    0 ≤ ((Player.mk_new 0).take_damage 5 2).health
    ∧ ((Player.mk_new 0).take_damage 5 2).health
        ≤ ((Player.mk_new 0).take_damage 5 2).max_health
    ∧ ∀ e ∈ ([] : List Enemy), 0 ≤ e.health ∧ e.health ≤ e.max_health :=
  health_within_bounds_invariant _ (Reach.player_hit ⟨Player.mk_new 0, []⟩ 5 2 (Reach.init 0))
